import Mathlib

/-!
Verification development for the Netrunner HTTP engine (Go).

Shallow embedding conventions:
* Go byte strings are modelled as `List Char` (`Str`); all inputs of interest
  are ASCII, so one `Char` per byte is faithful.
* Go maps (`map[string]string`, the route tables) are modelled as association
  lists with in-place update (`assocSet`), which matches Go map assignment
  semantics (`m[k] = v` keeps one binding per key, later writes win).  Go map
  iteration order is unspecified; the association-list order is a fixed
  determinization of it, and no theorem below depends on that order.
* Strings are modelled at the rune level: each `Char` is one decoded rune
  of the buffer.  `strings.TrimSpace` trims the runes accepted by Go's
  `unicode.IsSpace`, and `wsp` reproduces that set exactly (tab, LF, VT,
  FF, CR, space, NEL, NBSP and the higher Unicode White_Space code
  points).
* `bufio.Reader` line reading is modelled by splitting the buffer into
  `'\n'`-terminated chunks (`splitLines`); a final chunk without `'\n'`
  corresponds to `ReadString('\n')` returning data together with `io.EOF`.
  `ReadString` accumulates across internal refills, so line reading is
  exact at every input size.
* The single body `Read` is modelled in bufio's single-fill regime: for
  buffers of at most 4096 bytes (bufio's internal buffer size) the first
  fill buffers the entire input and the final `Read` returns the whole
  unread remainder, which is what the model computes.  For larger buffers
  `bufio.Read` would return only the already-buffered bytes, so theorems
  that assert body contents carry an explicit 4096-byte bound (the server
  itself hands the parser at most 1024 bytes per connection).  Success or
  failure of the parse and every non-body field are the same at any size:
  the body read errors exactly when the unread remainder is empty.
* Errors are an inductive taxonomy mirroring the `fmt.Errorf` messages of
  `ParseRequest`.
* `*tls.ConnectionState` is modelled as `Option Unit`: only presence matters
  to the router.
* Connections in the pool are modelled by numeric identifiers; closing a
  connection is recorded by returning it in a "closed" list.
-/

/-- Byte strings of the Go source, as lists of characters. -/
abbrev Str : Type := List Char

/-- Shorthand to turn a Lean string literal into a `Str`. -/
def sl (s : String) : Str := s.toList

/-- The CRLF line terminator. -/
def crlf : Str := ['\r', '\n']

/-- The whitespace runes of Go's `unicode.IsSpace`, exactly the set
`strings.TrimSpace` trims: tab, LF, VT, FF, CR, space, NEL (U+0085),
NBSP (U+00A0), and the higher Unicode White_Space code points. -/
def wsp (c : Char) : Bool :=
  c == '\t' || c == '\n' || c == '\x0b' || c == '\x0c' || c == '\r' || c == ' '
    || c == '\x85' || c == '\xa0' || c == '\u1680'
    || (0x2000 ≤ c.toNat && c.toNat ≤ 0x200a)
    || c == '\u2028' || c == '\u2029' || c == '\u202f' || c == '\u205f'
    || c == '\u3000'

/-- Drop leading whitespace (left half of `strings.TrimSpace`). -/
def trimLeft (l : Str) : Str := l.dropWhile wsp

/-- Drop trailing whitespace (right half of `strings.TrimSpace`). -/
def trimRight (l : Str) : Str := (l.reverse.dropWhile wsp).reverse

/-- Model of `strings.TrimSpace`. -/
def trimSpace (l : Str) : Str := trimLeft (trimRight l)

/-- Model of `strings.Split(s, sep)` for a one-character separator: split at
every occurrence, keeping empty pieces. -/
def splitOnC (sep : Char) : Str → List Str
  | [] => [[]]
  | c :: cs =>
    match splitOnC sep cs with
    | [] => [[c]]
    | h :: t => if c == sep then [] :: h :: t else (c :: h) :: t

/-- Model of `strings.SplitN(s, sep, 2)` for a one-character separator:
`some (before, after)` at the first occurrence, `none` when absent. -/
def splitFirst (sep : Char) : Str → Option (Str × Str)
  | [] => none
  | c :: cs =>
    if c == sep then some ([], cs)
    else (splitFirst sep cs).map (fun p => (c :: p.1, p.2))

/-- Helper for `splitLines`: accumulate the current line (reversed) while
scanning for `'\n'`. -/
def linesAux (acc : Str) : Str → List Str
  | [] => if acc.isEmpty then [] else [acc.reverse]
  | c :: cs =>
    if c == '\n' then (acc.reverse ++ ['\n']) :: linesAux [] cs
    else linesAux (c :: acc) cs

/-- Split a buffer into the chunks successive `bufio.ReadString('\n')` calls
would return: each chunk ends with `'\n'` except possibly the last. -/
def splitLines (l : Str) : List Str := linesAux [] l

/-- Whether a chunk is a complete line, i.e. `ReadString('\n')` returned it
without an error. -/
def endsWithLF (l : Str) : Bool := l.getLast? == some '\n'

/-- Whether `pre` is a leading part of `s` (model of `strings.HasPrefix`). -/
def strStartsWith : Str → Str → Bool
  | [], _ => true
  | _ :: _, [] => false
  | a :: as, b :: bs => a == b && strStartsWith as bs

/-- Whether `pat` occurs anywhere in the string. -/
def hasSubstr (pat : Str) : Str → Bool
  | [] => strStartsWith pat []
  | c :: cs => strStartsWith pat (c :: cs) || hasSubstr pat cs

/-- Split at the first occurrence of a multi-character separator, dropping the
separator (model of `bytes.SplitN(data, sep, 2)` when it finds a match). -/
def splitSeqFirst (pat : Str) : Str → Option (Str × Str)
  | [] => if pat.isEmpty then some ([], []) else none
  | c :: cs =>
    if strStartsWith pat (c :: cs) then some ([], (c :: cs).drop pat.length)
    else (splitSeqFirst pat cs).map (fun p => (c :: p.1, p.2))

/-- Go map assignment `m[k] = v`: replace the binding if the key is present,
otherwise add it. -/
def assocSet {α : Type} : List (Str × α) → Str → α → List (Str × α)
  | [], k, v => [(k, v)]
  | (k0, v0) :: t, k, v =>
    if k0 == k then (k0, v) :: t else (k0, v0) :: assocSet t k v

/-- Go map read `m[k]` with presence information. -/
def assocFind? {α : Type} : List (Str × α) → Str → Option α
  | [], _ => none
  | (k0, v0) :: t, k => if k0 == k then some v0 else assocFind? t k

/-- Go map read `m[k]` of a `map[string]string`, defaulting to `""`. -/
def lookupD (m : List (Str × Str)) (k : Str) : Str := (assocFind? m k).getD []

/-- The value of the last pair with the given key, if any ("last write wins"
view of a list of header pairs). -/
def lastLookup? (m : List (Str × Str)) (k : Str) : Option Str :=
  (m.reverse.find? (fun p => p.1 == k)).map (fun p => p.2)

/-- `lastLookup?` defaulting to `""`. -/
def lastLookupD (m : List (Str × Str)) (k : Str) : Str := (lastLookup? m k).getD []

/-- Error taxonomy of `ParseRequest` (pkg/http/request.go), one constructor
per `fmt.Errorf` site. -/
inductive ParseError where
  | readRequestLineErr
  | invalidRequestLine (line : Str)
  | readHeaderErr
  | invalidHeader (line : Str)
  | readBodyErr
deriving DecidableEq, Repr

/-- The `Request` struct of pkg/http/request.go.  `tls` models the
`*tls.ConnectionState` pointer: `none` is `nil`. -/
structure Request where
  method : Str
  path : Str
  version : Str
  headers : List (Str × Str)
  body : Str
  tls : Option Unit
deriving DecidableEq, Repr

/-- The header-reading loop of `ParseRequest`: one complete line per
iteration, stopping at a line that trims to empty; a missing or incomplete
line is the `ReadString` error case.  Returns the headers read so far and the
unconsumed lines. -/
def parseHeaderLines : List Str → List (Str × Str) →
    Except ParseError (List (Str × Str) × List Str)
  | [], _ => .error .readHeaderErr
  | l :: ls, acc =>
    if endsWithLF l then
      if (trimSpace l).isEmpty then .ok (acc, ls)
      else
        match splitFirst ':' (trimSpace l) with
        | none => .error (.invalidHeader (trimSpace l))
        | some (k, v) => parseHeaderLines ls (assocSet acc (trimSpace k) (trimSpace v))
    else .error .readHeaderErr

/-- Model of `ParseRequest(data, tlsConn)` from pkg/http/request.go: read the
request line with `ReadString('\n')`, trim it, split on single spaces and
require exactly three parts; read colon-separated headers until a blank line;
then read the body in one `Read` only when a `Content-Length` header is
present (an empty remainder then surfaces the `io.EOF` read error).  The
body `Read` is modelled in bufio's single-fill regime (buffers of at most
4096 bytes, where the one `Read` returns the entire unread remainder);
success, errors and all non-body fields agree with the program at every
input size. -/
def ParseRequest (data : Str) (tlsConn : Option Unit) : Except ParseError Request :=
  match splitLines data with
  | [] => .error .readRequestLineErr
  | l1 :: rest =>
    if endsWithLF l1 then
      match splitOnC ' ' (trimSpace l1) with
      | [m, p, v] =>
        match parseHeaderLines rest [] with
        | .error e => .error e
        | .ok (hs, bodyLines) =>
          if (lookupD hs (sl "Content-Length")).isEmpty then
            .ok ⟨m, p, v, hs, [], tlsConn⟩
          else if bodyLines.flatten.isEmpty then .error .readBodyErr
          else .ok ⟨m, p, v, hs, bodyLines.flatten, tlsConn⟩
      | _ => .error (.invalidRequestLine (trimSpace l1))
    else .error .readRequestLineErr

/-- The `Response` struct of pkg/http (response.go). -/
structure Response where
  version : Str
  statusCode : Nat
  statusText : Str
  headers : List (Str × Str)
  body : Str
deriving DecidableEq, Repr

/-- `NewResponse()`: version defaults to HTTP/1.1, empty header map. -/
def NewResponse : Response :=
  { version := sl "HTTP/1.1", statusCode := 0, statusText := [], headers := [], body := [] }

/-- `Response.SetStatus`. -/
def Response.SetStatus (r : Response) (code : Nat) : Response :=
  { r with statusCode := code }

/-- `Response.SetHeader`: Go map assignment on the header map. -/
def Response.SetHeader (r : Response) (k v : Str) : Response :=
  { r with headers := assocSet r.headers k v }

/-- Decimal rendering of a length, as `fmt.Sprintf("%d", n)`. -/
def natStr (n : Nat) : Str := (Nat.repr n).toList

/-- `Response.SetBody`: store the body and, as a side effect, write or
overwrite the `Content-Length` header to the body length. -/
def Response.SetBody (r : Response) (b : Str) : Response :=
  Response.SetHeader { r with body := b } (sl "Content-Length") (natStr b.length)

/-- One serialized header line, `name: value CRLF`, as emitted for both
requests and responses. -/
def headerLine (p : Str × Str) : Str := p.1 ++ sl ": " ++ p.2 ++ crlf

/-- The header lines emitted by `FormatResponse`, one `name: value CRLF`
chunk per map entry, in the (determinized) map iteration order. -/
def headerLines (hs : List (Str × Str)) : List Str := hs.map headerLine

/-- `FormatResponse(r)` from response.go: status line, header lines, a blank
line, then the raw body bytes. -/
def FormatResponse (r : Response) : Str :=
  r.version ++ [' '] ++ natStr r.statusCode ++ [' '] ++ r.statusText ++ crlf
    ++ (headerLines r.headers).flatten ++ crlf ++ r.body

/-- The `status.Text` registry (pkg/http/status/status.go): reason phrase by
code, `""` for unknown codes. -/
def statusTextOf (code : Nat) : Str :=
  match code with
  | 200 => sl "OK"
  | 201 => sl "Created"
  | 202 => sl "Accepted"
  | 204 => sl "No Content"
  | 301 => sl "Moved Permanently"
  | 302 => sl "Found"
  | 400 => sl "Bad Request"
  | 401 => sl "Unauthorized"
  | 403 => sl "Forbidden"
  | 404 => sl "Not Found"
  | 405 => sl "Method Not Allowed"
  | 408 => sl "Request Timeout"
  | 418 => sl "I'm a teapot"
  | 500 => sl "Internal Server Error"
  | 501 => sl "Not Implemented"
  | 502 => sl "Bad Gateway"
  | 503 => sl "Service Unavailable"
  | _ => []

/-- `NotFoundResponse()` from router.go. -/
def NotFoundResponse : Response :=
  Response.SetBody
    { NewResponse with statusCode := 404, statusText := sl "Not Found" }
    (sl "404 - Not Found")

/-- Handlers map a request to a response (`HandlerFunc`). -/
def HandlerFunc : Type := Request → Response

/-- Middleware wraps a handler (`MiddlewareFunc`). -/
def MiddlewareFunc : Type := HandlerFunc → HandlerFunc

/-- The `Router` struct (router.go, HTTPS-era version): nested route map and
ordered middleware list. -/
structure Router where
  routes : List (Str × List (Str × HandlerFunc))
  middleware : List MiddlewareFunc

/-- `NewRouter()`. -/
def NewRouter : Router := { routes := [], middleware := [] }

/-- `Router.Use`: append one middleware. -/
def Router.Use (r : Router) (mw : MiddlewareFunc) : Router :=
  { r with middleware := r.middleware ++ [mw] }

/-- `Router.AddRoute`: create the per-method map if missing, then assign the
handler for the exact path. -/
def Router.AddRoute (r : Router) (method path : Str) (h : HandlerFunc) : Router :=
  match assocFind? r.routes method with
  | none => { r with routes := assocSet r.routes method [(path, h)] }
  | some inner => { r with routes := assocSet r.routes method (assocSet inner path h) }

/-- The nested-map lookup performed by `Router.HandleRequest`. -/
def lookupRoute (r : Router) (method path : Str) : Option HandlerFunc :=
  match assocFind? r.routes method with
  | none => none
  | some inner => assocFind? inner path

/-- `Router.shouldRedirectToHTTPS`: every path not under `/static/`. -/
def Router.shouldRedirectToHTTPS (_r : Router) (req : Request) : Bool :=
  !(strStartsWith (sl "/static/") req.path)

/-- `Router.redirectToHTTPS`: a 301 response whose Location is
`https://` + Host header + path. -/
def Router.redirectToHTTPS (_r : Router) (req : Request) : Response :=
  Response.SetHeader
    { NewResponse with statusCode := 301, statusText := statusTextOf 301 }
    (sl "Location")
    (sl "https://" ++ lookupD req.headers (sl "Host") ++ req.path)

/-- The middleware-composition loop of `Router.HandleRequest`:
`for i := len(mw) - 1; i >= 0; i--  handler = mw[i](handler)`, so the head of
the registration list ends up outermost. -/
def applyMiddleware : List MiddlewareFunc → HandlerFunc → HandlerFunc
  | [], h => h
  | mw :: rest, h => mw (applyMiddleware rest h)

/-- `Router.HandleRequest` (HTTPS-era router.go): redirect plain-HTTP
non-static requests; otherwise look up the handler, wrap it in the middleware
chain and invoke it, or return the canonical 404. -/
def Router.HandleRequest (r : Router) (req : Request) : Response :=
  if req.tls.isNone && r.shouldRedirectToHTTPS req then
    r.redirectToHTTPS req
  else
    match lookupRoute r req.method req.path with
    | some handler => applyMiddleware r.middleware handler req
    | none => NotFoundResponse

/-- The `ConnPool` struct (pkg/http/connpool.go): the buffered channel is the
queue of idle connections (identified by numbers), `maxConns` its capacity. -/
structure ConnPool where
  conns : List Nat
  maxConns : Nat
deriving DecidableEq, Repr

/-- `NewConnPool(maxConns)`. -/
def NewConnPool (maxConns : Nat) : ConnPool := { conns := [], maxConns := maxConns }

/-- `ConnPool.Put`: enqueue when the channel has room (`select` succeeds),
otherwise close the offered connection.  Returns the new pool and the list of
connections closed by the call. -/
def ConnPool.Put (p : ConnPool) (conn : Nat) : ConnPool × List Nat :=
  if p.conns.length < p.maxConns then ({ p with conns := p.conns ++ [conn] }, [])
  else (p, [conn])

/-- `ConnPool.Get`: dequeue an idle connection when one is queued; on a miss
the code dials a fresh connection, which is never stored (`none` here). -/
def ConnPool.GetIdle (p : ConnPool) : ConnPool × Option Nat :=
  match p.conns with
  | [] => (p, none)
  | c :: rest => ({ p with conns := rest }, some c)

/-- `ConnPool.CloseIdleConnections`: close every queued connection and reset
to an empty channel of the same capacity. -/
def ConnPool.CloseIdleConnections (p : ConnPool) : ConnPool × List Nat :=
  ({ p with conns := [] }, p.conns)

/-- The pool operations a sequence of handling tasks can perform. -/
inductive PoolOp where
  | put (conn : Nat)
  | get
  | drain
deriving DecidableEq, Repr

/-- State effect of one pool operation. -/
def applyOp (p : ConnPool) : PoolOp → ConnPool
  | .put c => (p.Put c).1
  | .get => p.GetIdle.1
  | .drain => p.CloseIdleConnections.1

/-- State after a sequence of pool operations. -/
def applyOps (p : ConnPool) (ops : List PoolOp) : ConnPool := ops.foldl applyOp p

/-- Serialization of a request in the wire format of the spec:
`METHOD SP PATH SP VERSION CRLF (Name: Value CRLF)* CRLF body`. -/
def serializeRequest (R : Request) : Str :=
  R.method ++ [' '] ++ R.path ++ [' '] ++ R.version ++ crlf
    ++ (R.headers.map headerLine).flatten
    ++ crlf ++ R.body

/-- A request-line token: nonempty, no whitespace characters (hence no
spaces, CR or LF). -/
def tokenOK (t : Str) : Bool := !t.isEmpty && t.all (fun c => !wsp c)

/-- A serializable header name: nonempty, stable under trimming, without
colons or line breaks. -/
def keyOK (k : Str) : Bool :=
  !k.isEmpty && trimLeft k == k && trimRight k == k
    && k.all (fun c => !(c == ':') && !(c == '\n') && !(c == '\r'))

/-- A serializable header value: stable under trimming, without line
breaks. -/
def valOK (v : Str) : Bool :=
  trimLeft v == v && trimRight v == v && v.all (fun c => !(c == '\n') && !(c == '\r'))

/-- Well-formed requests: those whose serialization is an unambiguous
instance of the wire format. -/
def WellFormedReq (R : Request) : Bool :=
  tokenOK R.method && tokenOK R.path && tokenOK R.version
    && R.headers.all (fun p => keyOK p.1 && valOK p.2)

/-- Helper for `specFields`: accumulate the current token (reversed) and cut
at whitespace. -/
def specFieldsAux (acc : Str) : Str → List Str
  | [] => if acc.isEmpty then [] else [acc.reverse]
  | c :: cs =>
    if wsp c then
      if acc.isEmpty then specFieldsAux [] cs
      else acc.reverse :: specFieldsAux [] cs
    else specFieldsAux (c :: acc) cs

/-- Modelled from the spec: the "whitespace-separated tokens" of a line, as
`strings.Fields` computes them — the maximal nonempty runs between
whitespace.  Used only to state the claim's reading of the request line, to
be compared with the split the source actually performs. -/
def specFields (l : Str) : List Str := specFieldsAux [] l

/-!
Supporting lemmas about the string and map primitives.
-/

theorem dropWhile_append_all {p : Char → Bool} {a b : Str}
    (h : ∀ c ∈ a, p c = true) :
    (a ++ b).dropWhile p = b.dropWhile p := by
  induction a with
  | nil => simp
  | cons c cs ih =>
    simp only [List.cons_append, List.dropWhile_cons, h c (List.mem_cons_self c cs)]
    exact ih (fun x hx => h x (List.mem_cons_of_mem _ hx))

theorem trimLeft_cons_of_not {c : Char} {l : Str} (h : wsp c = false) :
    trimLeft (c :: l) = c :: l := by
  simp [trimLeft, List.dropWhile_cons, h]

theorem trimRight_append_all {x s : Str} (h : ∀ c ∈ s, wsp c = true) :
    trimRight (x ++ s) = trimRight x := by
  have : ∀ c ∈ s.reverse, wsp c = true := fun c hc => h c (List.mem_reverse.mp hc)
  simp [trimRight, List.reverse_append, dropWhile_append_all this]

theorem trimRight_concat_not {x : Str} {c : Char} (h : wsp c = false) :
    trimRight (x ++ [c]) = x ++ [c] := by
  simp [trimRight, List.reverse_append, List.dropWhile_cons, h]

theorem length_dropWhile_le (p : Char → Bool) (l : Str) :
    (l.dropWhile p).length ≤ l.length :=
  (List.dropWhile_sublist p (l := l)).length_le

theorem length_trimRight_le (l : Str) : (trimRight l).length ≤ l.length := by
  simpa [trimRight] using length_dropWhile_le wsp l.reverse

theorem last_not_wsp {y : Str} {d : Char}
    (h : trimRight (y ++ [d]) = y ++ [d]) : wsp d = false := by
  by_contra hc
  have hd : wsp d = true := by
    cases hw : wsp d with
    | false => exact absurd hw hc
    | true => rfl
  have h1 : trimRight (y ++ [d]) = trimRight y :=
    trimRight_append_all (fun c hh => by simpa using (List.mem_singleton.mp hh) ▸ hd)
  have h2 := congrArg List.length (h1.symm.trans h)
  have h3 := length_trimRight_le y
  simp at h2
  omega

theorem head_not_wsp {c : Char} {l : Str}
    (h : trimLeft (c :: l) = c :: l) : wsp c = false := by
  by_contra hc
  have hd : wsp c = true := by
    cases hw : wsp c with
    | false => exact absurd hw hc
    | true => rfl
  have h1 : trimLeft (c :: l) = trimLeft l := by
    simp [trimLeft, List.dropWhile_cons, hd]
  have h2 := congrArg List.length (h1.symm.trans h)
  have h3 := length_dropWhile_le wsp l
  simp [trimLeft] at h2 h3
  omega

theorem trimSpace_append_crlf (x : Str) : trimSpace (x ++ crlf) = trimSpace x := by
  have : ∀ c ∈ crlf, wsp c = true := by decide
  simp [trimSpace, trimRight_append_all this]

theorem trimSpace_of_stable {x : Str} (h1 : trimLeft x = x) (h2 : trimRight x = x) :
    trimSpace x = x := by
  simp [trimSpace, h2, h1]

theorem linesAux_line {x : Str} (y : Str) (h : '\n' ∉ x) : ∀ acc : Str,
    linesAux acc (x ++ '\n' :: y) = (acc.reverse ++ x ++ ['\n']) :: linesAux [] y := by
  induction x with
  | nil => intro acc; simp [linesAux]
  | cons c cs ih =>
    intro acc
    have hc : (c == '\n') = false := by
      simp only [beq_eq_false_iff_ne, ne_eq]
      intro hcc
      exact h (hcc ▸ List.mem_cons_self c cs)
    have hcs : '\n' ∉ cs := fun hm => h (List.mem_cons_of_mem _ hm)
    simp only [List.cons_append, linesAux, List.append_eq, hc, Bool.false_eq_true,
      if_false]
    rw [ih hcs (c :: acc)]
    simp

theorem splitLines_cons_line {x y : Str} (h : '\n' ∉ x) :
    splitLines (x ++ '\n' :: y) = (x ++ ['\n']) :: splitLines y := by
  simpa [splitLines] using linesAux_line y h []

theorem linesAux_flatten (l : Str) : ∀ acc : Str,
    (linesAux acc l).flatten = acc.reverse ++ l := by
  induction l with
  | nil =>
    intro acc
    by_cases h : acc.isEmpty
    · have : acc = [] := by simpa [List.isEmpty_iff] using h
      simp [linesAux, this]
    · simp [linesAux, h]
  | cons c cs ih =>
    intro acc
    by_cases h : c = '\n'
    · simp [linesAux, h, ih []]
    · have hc : (c == '\n') = false := by simpa using h
      simp [linesAux, hc, ih (c :: acc)]

theorem splitLines_flatten (l : Str) : (splitLines l).flatten = l := by
  simpa [splitLines] using linesAux_flatten l []

theorem linesAux_no_lf {l : Str} (h : '\n' ∉ l) : ∀ acc : Str,
    linesAux acc l = if (acc.reverse ++ l).isEmpty then [] else [acc.reverse ++ l] := by
  induction l with
  | nil => intro acc; simp [linesAux]
  | cons c cs ih =>
    intro acc
    have hc : (c == '\n') = false := by
      simp only [beq_eq_false_iff_ne, ne_eq]
      intro hcc
      exact h (hcc ▸ List.mem_cons_self c cs)
    have hcs : '\n' ∉ cs := fun hm => h (List.mem_cons_of_mem _ hm)
    simp only [linesAux, hc, Bool.false_eq_true, if_false, ih hcs (c :: acc),
      List.reverse_cons]
    simp

theorem splitLines_no_lf {l : Str} (h : '\n' ∉ l) :
    splitLines l = if l.isEmpty then [] else [l] := by
  simpa [splitLines] using linesAux_no_lf h []

theorem splitOnC_ne_nil (sep : Char) (l : Str) : splitOnC sep l ≠ [] := by
  cases l with
  | nil => simp [splitOnC]
  | cons c cs =>
    cases hr : splitOnC sep cs with
    | nil => simp [splitOnC, hr]
    | cons h t =>
      by_cases hc : (c == sep) = true <;> simp [splitOnC, hr, hc]

theorem splitOnC_no_sep {sep : Char} {t : Str} (h : sep ∉ t) :
    splitOnC sep t = [t] := by
  induction t with
  | nil => rfl
  | cons c cs ih =>
    have hc : (c == sep) = false := by
      simp only [beq_eq_false_iff_ne, ne_eq]
      intro hcc
      exact h (hcc ▸ List.mem_cons_self c cs)
    have hcs : sep ∉ cs := fun hm => h (List.mem_cons_of_mem _ hm)
    simp [splitOnC, ih hcs, hc]

theorem splitOnC_append {sep : Char} {a r : Str} (h : sep ∉ a) :
    splitOnC sep (a ++ sep :: r) = a :: splitOnC sep r := by
  induction a with
  | nil =>
    cases hr : splitOnC sep r with
    | nil => exact absurd hr (splitOnC_ne_nil sep r)
    | cons x xs => simp [splitOnC, hr]
  | cons c cs ih =>
    have hc : (c == sep) = false := by
      simp only [beq_eq_false_iff_ne, ne_eq]
      intro hcc
      exact h (hcc ▸ List.mem_cons_self c cs)
    have hcs : sep ∉ cs := fun hm => h (List.mem_cons_of_mem _ hm)
    cases hr : splitOnC sep (cs ++ sep :: r) with
    | nil => exact absurd hr (splitOnC_ne_nil sep _)
    | cons x xs =>
      have hx := (ih hcs).symm.trans hr
      injection hx with hx1 hx2
      subst hx1
      subst hx2
      simp only [List.cons_append, splitOnC, List.append_eq, hr, hc,
        Bool.false_eq_true, if_false]

theorem splitFirst_none {sep : Char} {t : Str} (h : sep ∉ t) :
    splitFirst sep t = none := by
  induction t with
  | nil => rfl
  | cons c cs ih =>
    have hc : (c == sep) = false := by
      simp only [beq_eq_false_iff_ne, ne_eq]
      intro hcc
      exact h (hcc ▸ List.mem_cons_self c cs)
    have hcs : sep ∉ cs := fun hm => h (List.mem_cons_of_mem _ hm)
    simp [splitFirst, hc, ih hcs]

theorem splitFirst_append {sep : Char} {a r : Str} (h : sep ∉ a) :
    splitFirst sep (a ++ sep :: r) = some (a, r) := by
  induction a with
  | nil => simp [splitFirst]
  | cons c cs ih =>
    have hc : (c == sep) = false := by
      simp only [beq_eq_false_iff_ne, ne_eq]
      intro hcc
      exact h (hcc ▸ List.mem_cons_self c cs)
    have hcs : sep ∉ cs := fun hm => h (List.mem_cons_of_mem _ hm)
    simp [splitFirst, hc, ih hcs]

theorem endsWithLF_concat : endsWithLF (x ++ ['\n']) = true := by
  simp [endsWithLF]

theorem endsWithLF_append_crlf (x : Str) : endsWithLF (x ++ crlf) = true := by
  have : x ++ crlf = (x ++ ['\r']) ++ ['\n'] := by simp [crlf]
  rw [this]
  exact endsWithLF_concat

theorem assocFind?_set {α : Type} (m : List (Str × α)) (k k2 : Str) (v : α) :
    assocFind? (assocSet m k v) k2 = if k2 = k then some v else assocFind? m k2 := by
  induction m with
  | nil =>
    simp only [assocSet, assocFind?]
    by_cases h : k2 = k
    · subst h; simp
    · have hb : (k == k2) = false := beq_eq_false_iff_ne.mpr (fun hh => h hh.symm)
      simp [hb, h]
  | cons p t ih =>
    obtain ⟨k0, v0⟩ := p
    simp only [assocSet]
    by_cases h0 : k0 = k
    · have hb : (k0 == k) = true := by simpa using h0
      subst h0
      simp only [hb, if_true, assocFind?]
      by_cases h2 : k2 = k0
      · subst h2; simp
      · have hb2 : (k0 == k2) = false := beq_eq_false_iff_ne.mpr (fun hh => h2 hh.symm)
        simp [hb2, h2]
    · have hb : (k0 == k) = false := beq_eq_false_iff_ne.mpr h0
      simp only [hb, Bool.false_eq_true, if_false, assocFind?]
      by_cases h2 : k2 = k0
      · subst h2
        simp [h0]
      · have hb2 : (k0 == k2) = false := beq_eq_false_iff_ne.mpr (fun hh => h2 hh.symm)
        simp [hb2, ih]

theorem find?_append {α : Type} (p : α → Bool) (a b : List α) :
    List.find? p (a ++ b) = (List.find? p a).orElse (fun _ => List.find? p b) := by
  induction a with
  | nil => simp [Option.orElse]
  | cons x xs ih =>
    cases hp : p x with
    | true => simp [List.find?, hp, Option.orElse]
    | false => simp [List.find?, hp, ih]

theorem lastLookup?_cons (k1 v1 : Str) (t : List (Str × Str)) (k : Str) :
    lastLookup? ((k1, v1) :: t) k =
      (lastLookup? t k).orElse (fun _ => if k1 = k then some v1 else none) := by
  simp only [lastLookup?, List.reverse_cons, find?_append]
  cases hf : List.find? (fun p => p.1 == k) t.reverse with
  | some w => simp [Option.orElse]
  | none =>
    by_cases h : k1 = k
    · have hb : (k1 == k) = true := by simpa using h
      simp [Option.orElse, List.find?, hb, h]
    · have hb : (k1 == k) = false := beq_eq_false_iff_ne.mpr h
      simp [Option.orElse, List.find?, hb, h]

theorem foldl_assocSet_find (hs : List (Str × Str)) : ∀ (m : List (Str × Str)) (k : Str),
    assocFind? (hs.foldl (fun m p => assocSet m p.1 p.2) m) k =
      (lastLookup? hs k).orElse (fun _ => assocFind? m k) := by
  induction hs with
  | nil => intro m k; simp [lastLookup?, Option.orElse]
  | cons p t ih =>
    intro m k
    obtain ⟨k1, v1⟩ := p
    rw [List.foldl_cons, ih, lastLookup?_cons, assocFind?_set]
    cases hl : lastLookup? t k with
    | some w => simp [Option.orElse]
    | none =>
      by_cases h : k1 = k
      · subst h
        simp [Option.orElse]
      · have h2 : ¬k = k1 := fun hh => h hh.symm
        simp [Option.orElse, h, h2]

theorem ne_nil_of_isEmpty_false {l : Str} (h : l.isEmpty = false) : l ≠ [] := by
  intro hh
  subst hh
  simp at h

theorem tokenOK_spec {t : Str} (h : tokenOK t = true) :
    t ≠ [] ∧ ∀ c ∈ t, wsp c = false := by
  simp only [tokenOK, Bool.and_eq_true, List.all_eq_true, Bool.not_eq_true'] at h
  exact ⟨ne_nil_of_isEmpty_false h.1, h.2⟩

theorem keyOK_spec {k : Str} (h : keyOK k = true) :
    k ≠ [] ∧ trimLeft k = k ∧ trimRight k = k ∧
      ∀ c ∈ k, c ≠ ':' ∧ c ≠ '\n' ∧ c ≠ '\r' := by
  simp only [keyOK, Bool.and_eq_true, List.all_eq_true, Bool.not_eq_true',
    beq_iff_eq, beq_eq_false_iff_ne] at h
  obtain ⟨⟨⟨h1, h2⟩, h3⟩, h4⟩ := h
  refine ⟨ne_nil_of_isEmpty_false h1, h2, h3, fun c hc => ?_⟩
  obtain ⟨⟨ha, hb⟩, hcr⟩ := h4 c hc
  exact ⟨ha, hb, hcr⟩

theorem valOK_spec {v : Str} (h : valOK v = true) :
    trimLeft v = v ∧ trimRight v = v ∧ ∀ c ∈ v, c ≠ '\n' ∧ c ≠ '\r' := by
  simp only [valOK, Bool.and_eq_true, List.all_eq_true, Bool.not_eq_true',
    beq_iff_eq, beq_eq_false_iff_ne] at h
  obtain ⟨⟨h1, h2⟩, h3⟩ := h
  exact ⟨h1, h2, h3⟩

theorem wellFormedReq_spec {R : Request} (h : WellFormedReq R = true) :
    tokenOK R.method = true ∧ tokenOK R.path = true ∧ tokenOK R.version = true ∧
      ∀ p ∈ R.headers, keyOK p.1 = true ∧ valOK p.2 = true := by
  simp only [WellFormedReq, Bool.and_eq_true, List.all_eq_true] at h
  exact ⟨h.1.1.1, h.1.1.2, h.1.2, h.2⟩

theorem not_mem_of_all_not_wsp {t : Str} (h : ∀ c ∈ t, wsp c = false)
    {c0 : Char} (hc : wsp c0 = true) : c0 ∉ t := by
  intro hm
  rw [h c0 hm] at hc
  exact Bool.false_ne_true hc

theorem trimLeft_of_all_not_wsp {t : Str} (h : ∀ c ∈ t, wsp c = false) :
    trimLeft t = t := by
  cases t with
  | nil => rfl
  | cons c cs => exact trimLeft_cons_of_not (h c (List.mem_cons_self c cs))

theorem trimRight_of_all_not_wsp {t : Str} (h : ∀ c ∈ t, wsp c = false) :
    trimRight t = t := by
  rcases List.eq_nil_or_concat t with h0 | ⟨y, d, h0⟩
  · subst h0; rfl
  · rw [List.concat_eq_append] at h0
    subst h0
    exact trimRight_concat_not (h d (by simp))

theorem endsWithLF_headerLine (p : Str × Str) : endsWithLF (headerLine p) = true := by
  have : headerLine p = (p.1 ++ sl ": " ++ p.2) ++ crlf := by
    simp [headerLine, List.append_assoc]
  rw [this]
  exact endsWithLF_append_crlf _

theorem trimSpace_headerLine {k v : Str} (hk : keyOK k = true) (hv : valOK v = true) :
    trimSpace (headerLine (k, v)) = k ++ ':' :: (if v = [] then [] else ' ' :: v) := by
  obtain ⟨hkne, hktl, hktr, _⟩ := keyOK_spec hk
  obtain ⟨_, hvtr, _⟩ := valOK_spec hv
  obtain ⟨c, k0, hkc⟩ := List.exists_cons_of_ne_nil hkne
  have hhead : wsp c = false := head_not_wsp (hkc ▸ hktl)
  by_cases hvnil : v = []
  · subst hvnil
    have h1 : headerLine (k, ([] : Str)) = (k ++ [':']) ++ ([' '] ++ crlf) := by
      simp [headerLine, sl, crlf, List.append_assoc]
    have h2 : trimRight ((k ++ [':']) ++ ([' '] ++ crlf)) = trimRight (k ++ [':']) :=
      trimRight_append_all (by decide)
    have h3 : trimRight (k ++ [':']) = k ++ [':'] := trimRight_concat_not (by decide)
    have h4 : trimLeft (k ++ [':']) = k ++ [':'] := by
      rw [hkc]
      exact trimLeft_cons_of_not hhead
    rw [trimSpace, h1, h2, h3, h4]
    simp
  · obtain ⟨y, d, hyd⟩ := List.eq_nil_or_concat v |>.resolve_left hvnil
    rw [List.concat_eq_append] at hyd
    have hd : wsp d = false := last_not_wsp (hyd ▸ hvtr)
    have h1 : headerLine (k, v) = ((k ++ [':', ' '] ++ y) ++ [d]) ++ crlf := by
      simp [headerLine, sl, hyd, List.append_assoc]
    have h2 : trimRight (((k ++ [':', ' '] ++ y) ++ [d]) ++ crlf)
        = trimRight ((k ++ [':', ' '] ++ y) ++ [d]) :=
      trimRight_append_all (by decide)
    have h3 : trimRight ((k ++ [':', ' '] ++ y) ++ [d]) = (k ++ [':', ' '] ++ y) ++ [d] :=
      trimRight_concat_not hd
    have h4 : trimLeft ((k ++ [':', ' '] ++ y) ++ [d]) = (k ++ [':', ' '] ++ y) ++ [d] := by
      rw [hkc]
      have : ((c :: k0 ++ [':', ' '] ++ y) ++ [d]) = c :: ((k0 ++ [':', ' '] ++ y) ++ [d]) := by
        simp
      rw [this]
      exact trimLeft_cons_of_not hhead
    rw [trimSpace, h1, h2, h3, h4]
    simp [hvnil, hyd, List.append_assoc]

theorem splitFirst_headerLine {k : Str} (hk : keyOK k = true) (rest : Str) :
    splitFirst ':' (k ++ ':' :: rest) = some (k, rest) := by
  obtain ⟨_, _, _, hch⟩ := keyOK_spec hk
  exact splitFirst_append (fun hm => (hch ':' hm).1 rfl)

theorem trimSpace_key {k : Str} (hk : keyOK k = true) : trimSpace k = k := by
  obtain ⟨_, h1, h2, _⟩ := keyOK_spec hk
  exact trimSpace_of_stable h1 h2

theorem trimSpace_val {v : Str} (hv : valOK v = true) :
    trimSpace (if v = [] then [] else ' ' :: v) = v := by
  obtain ⟨hvtl, hvtr, _⟩ := valOK_spec hv
  by_cases hvnil : v = []
  · subst hvnil; rfl
  · obtain ⟨y, d, hyd⟩ := List.eq_nil_or_concat v |>.resolve_left hvnil
    rw [List.concat_eq_append] at hyd
    have hd : wsp d = false := last_not_wsp (hyd ▸ hvtr)
    have h1 : trimRight (' ' :: v) = ' ' :: v := by
      rw [hyd]
      have : (' ' :: (y ++ [d])) = (' ' :: y) ++ [d] := by simp
      rw [this]
      exact trimRight_concat_not hd
    have h2 : trimLeft (' ' :: v) = trimLeft v := by
      have hsp : wsp ' ' = true := by decide
      simp [trimLeft, List.dropWhile_cons, hsp]
    simp [hvnil, trimSpace, h1, h2, hvtl]

theorem lf_not_mem_headerLine_init {k v : Str} (hk : keyOK k = true)
    (hv : valOK v = true) : '\n' ∉ (k ++ [':', ' '] ++ v ++ ['\r']) := by
  obtain ⟨_, _, _, hkc⟩ := keyOK_spec hk
  obtain ⟨_, _, hvc⟩ := valOK_spec hv
  intro hm
  simp only [List.mem_append, List.mem_cons, List.not_mem_nil, or_false] at hm
  rcases hm with ((hm | hm) | hm) | hm
  · exact (hkc '\n' hm).2.1 rfl
  · rcases hm with hm | hm
    · exact absurd hm.symm (by decide)
    · exact absurd hm.symm (by decide)
  · exact (hvc '\n' hm).1 rfl
  · exact absurd hm.symm (by decide)

theorem headerLine_decomp (k v : Str) (z : Str) :
    headerLine (k, v) ++ z = (k ++ [':', ' '] ++ v ++ ['\r']) ++ '\n' :: z := by
  simp [headerLine, sl, crlf, List.append_assoc]

theorem splitLines_headerBlock (body : Str) :
    ∀ hs : List (Str × Str), (∀ p0 ∈ hs, keyOK p0.1 = true ∧ valOK p0.2 = true) →
    splitLines ((hs.map headerLine).flatten ++ (crlf ++ body)) =
      hs.map headerLine ++ crlf :: splitLines body := by
  intro hs
  induction hs with
  | nil =>
    intro _
    have h0 : crlf ++ body = ['\r'] ++ '\n' :: body := by simp [crlf]
    simp only [List.map_nil, List.flatten_nil, List.nil_append, h0]
    rw [splitLines_cons_line (by decide)]
    simp [crlf]
  | cons p0 t ih =>
    intro hwf
    obtain ⟨k, v⟩ := p0
    have hk := (hwf (k, v) (List.mem_cons_self _ _)).1
    have hv := (hwf (k, v) (List.mem_cons_self _ _)).2
    have hwt : ∀ q ∈ t, keyOK q.1 = true ∧ valOK q.2 = true :=
      fun q hq => hwf q (List.mem_cons_of_mem _ hq)
    have hstep : (((k, v) :: t).map headerLine).flatten ++ (crlf ++ body)
        = (k ++ [':', ' '] ++ v ++ ['\r'])
            ++ '\n' :: ((t.map headerLine).flatten ++ (crlf ++ body)) := by
      simp [headerLine, sl, crlf, List.append_assoc]
    rw [hstep, splitLines_cons_line (lf_not_mem_headerLine_init hk hv), ih hwt]
    have : (k ++ [':', ' '] ++ v ++ ['\r']) ++ ['\n'] = headerLine (k, v) := by
      simp [headerLine, sl, crlf, List.append_assoc]
    rw [this]
    simp

theorem splitLines_serialize (R : Request) (h : WellFormedReq R = true) :
    splitLines (serializeRequest R) =
      (R.method ++ [' '] ++ R.path ++ [' '] ++ R.version ++ crlf)
        :: (R.headers.map headerLine ++ crlf :: splitLines R.body) := by
  obtain ⟨hm, hp, hv, hhd⟩ := wellFormedReq_spec h
  obtain ⟨_, hmw⟩ := tokenOK_spec hm
  obtain ⟨_, hpw⟩ := tokenOK_spec hp
  obtain ⟨_, hvw⟩ := tokenOK_spec hv
  have hlf : '\n' ∉ (R.method ++ [' '] ++ R.path ++ [' '] ++ R.version ++ ['\r']) := by
    intro hmem
    simp only [List.mem_append, List.mem_cons, List.not_mem_nil, or_false] at hmem
    rcases hmem with ((((h1 | h1) | h1) | h1) | h1) | h1
    · exact Bool.false_ne_true ((hmw '\n' h1).symm.trans (by decide))
    · exact absurd h1.symm (by decide)
    · exact Bool.false_ne_true ((hpw '\n' h1).symm.trans (by decide))
    · exact absurd h1.symm (by decide)
    · exact Bool.false_ne_true ((hvw '\n' h1).symm.trans (by decide))
    · exact absurd h1.symm (by decide)
  have hdec : serializeRequest R =
      (R.method ++ [' '] ++ R.path ++ [' '] ++ R.version ++ ['\r'])
        ++ '\n' :: ((R.headers.map headerLine).flatten ++ (crlf ++ R.body)) := by
    simp [serializeRequest, crlf, List.append_assoc]
  rw [hdec, splitLines_cons_line hlf, splitLines_headerBlock R.body R.headers hhd]
  simp [crlf, List.append_assoc]

theorem trimSpace_requestLine {m p v : Str} (hm : tokenOK m = true)
    (_hp : tokenOK p = true) (hv : tokenOK v = true) :
    trimSpace (m ++ [' '] ++ p ++ [' '] ++ v ++ crlf) = m ++ [' '] ++ p ++ [' '] ++ v := by
  obtain ⟨hmne, hmw⟩ := tokenOK_spec hm
  obtain ⟨hvne, hvw⟩ := tokenOK_spec hv
  rw [trimSpace_append_crlf]
  obtain ⟨c, m0, hmc⟩ := List.exists_cons_of_ne_nil hmne
  obtain ⟨y, d, hyd⟩ := List.eq_nil_or_concat v |>.resolve_left hvne
  rw [List.concat_eq_append] at hyd
  have hd : wsp d = false := hvw d (by simp [hyd])
  have hc : wsp c = false := hmw c (by simp [hmc])
  have htr : trimRight (m ++ [' '] ++ p ++ [' '] ++ v) = m ++ [' '] ++ p ++ [' '] ++ v := by
    have hsh : m ++ [' '] ++ p ++ [' '] ++ v = (m ++ [' '] ++ p ++ [' '] ++ y) ++ [d] := by
      simp [hyd, List.append_assoc]
    rw [hsh, trimRight_concat_not hd, ← hsh]
  have htl : trimLeft (m ++ [' '] ++ p ++ [' '] ++ v) = m ++ [' '] ++ p ++ [' '] ++ v := by
    have hsh : m ++ [' '] ++ p ++ [' '] ++ v = c :: (m0 ++ [' '] ++ p ++ [' '] ++ v) := by
      simp [hmc, List.append_assoc]
    rw [hsh, trimLeft_cons_of_not hc, ← hsh]
  exact trimSpace_of_stable htl htr

theorem splitOnC_requestLine {m p v : Str} (hm : tokenOK m = true)
    (hp : tokenOK p = true) (hv : tokenOK v = true) :
    splitOnC ' ' (m ++ [' '] ++ p ++ [' '] ++ v) = [m, p, v] := by
  obtain ⟨_, hmw⟩ := tokenOK_spec hm
  obtain ⟨_, hpw⟩ := tokenOK_spec hp
  obtain ⟨_, hvw⟩ := tokenOK_spec hv
  have hms : ' ' ∉ m := not_mem_of_all_not_wsp hmw (by decide)
  have hps : ' ' ∉ p := not_mem_of_all_not_wsp hpw (by decide)
  have hvs : ' ' ∉ v := not_mem_of_all_not_wsp hvw (by decide)
  have hsh : m ++ [' '] ++ p ++ [' '] ++ v = m ++ ' ' :: (p ++ ' ' :: v) := by
    simp [List.append_assoc]
  rw [hsh, splitOnC_append hms, splitOnC_append hps, splitOnC_no_sep hvs]

theorem parseHeaderLines_block (tail : List Str) :
    ∀ (hs : List (Str × Str)), (∀ p0 ∈ hs, keyOK p0.1 = true ∧ valOK p0.2 = true) →
    ∀ acc, parseHeaderLines (hs.map headerLine ++ crlf :: tail) acc =
      .ok (hs.foldl (fun m q => assocSet m q.1 q.2) acc, tail) := by
  intro hs
  induction hs with
  | nil =>
    intro _ acc
    have h1 : endsWithLF crlf = true := by decide
    have h2 : trimSpace crlf = [] := by decide
    simp [parseHeaderLines, h1, h2]
  | cons p0 t ih =>
    intro hwf acc
    obtain ⟨k, v⟩ := p0
    have hk := (hwf (k, v) (List.mem_cons_self _ _)).1
    have hv := (hwf (k, v) (List.mem_cons_self _ _)).2
    have hwt : ∀ q ∈ t, keyOK q.1 = true ∧ valOK q.2 = true :=
      fun q hq => hwf q (List.mem_cons_of_mem _ hq)
    have hne : (k ++ ':' :: (if v = [] then [] else ' ' :: v)).isEmpty = false := by
      cases k <;> simp
    simp only [List.map_cons, List.cons_append, List.append_eq, parseHeaderLines,
      endsWithLF_headerLine, if_true, trimSpace_headerLine hk hv, hne,
      Bool.false_eq_true, if_false, splitFirst_headerLine hk,
      trimSpace_key hk, trimSpace_val hv]
    rw [ih hwt (assocSet acc k v)]
    simp

theorem ParseRequest_serialize (R : Request) (tls : Option Unit)
    (h : WellFormedReq R = true) :
    ParseRequest (serializeRequest R) tls =
      (if (lookupD (R.headers.foldl (fun m q => assocSet m q.1 q.2) [])
            (sl "Content-Length")).isEmpty then
        .ok ⟨R.method, R.path, R.version,
          R.headers.foldl (fun m q => assocSet m q.1 q.2) [], [], tls⟩
      else if R.body.isEmpty then .error .readBodyErr
      else .ok ⟨R.method, R.path, R.version,
        R.headers.foldl (fun m q => assocSet m q.1 q.2) [], R.body, tls⟩) := by
  obtain ⟨hm, hp, hv, hhd⟩ := wellFormedReq_spec h
  have hline : endsWithLF (R.method ++ [' '] ++ R.path ++ [' '] ++ R.version ++ crlf)
      = true := by
    have hsh : R.method ++ [' '] ++ R.path ++ [' '] ++ R.version ++ crlf
        = (R.method ++ [' '] ++ R.path ++ [' '] ++ R.version) ++ crlf := by
      simp [List.append_assoc]
    rw [hsh]
    exact endsWithLF_append_crlf _
  simp only [ParseRequest, splitLines_serialize R h, hline, if_true,
    trimSpace_requestLine hm hp hv, splitOnC_requestLine hm hp hv,
    parseHeaderLines_block (splitLines R.body) R.headers hhd, splitLines_flatten]

theorem parseHeaderLines_suffix :
    ∀ (ls : List Str) (acc hs : List (Str × Str)) (rem : List Str),
    parseHeaderLines ls acc = .ok (hs, rem) → ∃ pre, ls.flatten = pre ++ rem.flatten := by
  intro ls
  induction ls with
  | nil => intro acc hs rem h; cases h
  | cons l t ih =>
    intro acc hs rem h
    unfold parseHeaderLines at h
    cases hlf : endsWithLF l <;> rw [hlf] at h
    · simp at h
    · cases hemp : (trimSpace l).isEmpty <;> rw [hemp] at h
      · simp only [Bool.false_eq_true, if_false] at h
        rcases hspl : splitFirst ':' (trimSpace l) with _ | ⟨k, v⟩ <;> rw [hspl] at h
        · simp at h
        · obtain ⟨pre, hpre⟩ := ih _ _ _ h
          exact ⟨l ++ pre, by simp [hpre, List.append_assoc]⟩
      · simp only [if_true] at h
        injection h with h'
        injection h' with h1 h2
        subst h2
        exact ⟨l, by simp⟩

theorem parseHeaderLines_blank :
    ∀ (ls : List Str) (acc hs : List (Str × Str)) (rem : List Str),
    parseHeaderLines ls acc = .ok (hs, rem) →
    ∃ l ∈ ls, endsWithLF l = true ∧ trimSpace l = [] := by
  intro ls
  induction ls with
  | nil => intro acc hs rem h; cases h
  | cons l t ih =>
    intro acc hs rem h
    unfold parseHeaderLines at h
    cases hlf : endsWithLF l <;> rw [hlf] at h
    · simp at h
    · cases hemp : (trimSpace l).isEmpty <;> rw [hemp] at h
      · simp only [Bool.false_eq_true, if_false] at h
        rcases hspl : splitFirst ':' (trimSpace l) with _ | ⟨k, v⟩ <;> rw [hspl] at h
        · simp at h
        · obtain ⟨l0, hl0, h1, h2⟩ := ih _ _ _ h
          exact ⟨l0, List.mem_cons_of_mem _ hl0, h1, h2⟩
      · exact ⟨l, List.mem_cons_self _ _, hlf, by simpa [List.isEmpty_iff] using hemp⟩

theorem ParseRequest_ok_inv {data : Str} {tls : Option Unit} {r : Request}
    (h : ParseRequest data tls = .ok r) :
    ∃ l1 rest hs bodyLines,
      splitLines data = l1 :: rest ∧ endsWithLF l1 = true ∧
      splitOnC ' ' (trimSpace l1) = [r.method, r.path, r.version] ∧
      parseHeaderLines rest [] = .ok (hs, bodyLines) ∧
      r.headers = hs ∧ r.tls = tls ∧
      (((lookupD hs (sl "Content-Length")).isEmpty = true ∧ r.body = []) ∨
       ((lookupD hs (sl "Content-Length")).isEmpty = false ∧
         bodyLines.flatten.isEmpty = false ∧ r.body = bodyLines.flatten)) := by
  unfold ParseRequest at h
  rcases hq : splitLines data with _ | ⟨l1, rest⟩ <;> rw [hq] at h
  · cases h
  · simp only [] at h
    cases hlf : endsWithLF l1
    · rw [hlf] at h
      simp at h
    · rw [if_pos hlf] at h
      rcases hm3 : splitOnC ' ' (trimSpace l1) with _ | ⟨m, _ | ⟨p, _ | ⟨v, _ | ⟨d, t4⟩⟩⟩⟩
        <;> rw [hm3] at h
      · simp at h
      · simp at h
      · simp at h
      · rcases hph : parseHeaderLines rest [] with e | ⟨hs, bodyLines⟩ <;> rw [hph] at h
        · simp at h
        · simp only [] at h
          cases hcl : (lookupD hs (sl "Content-Length")).isEmpty <;> rw [hcl] at h
          · simp only [Bool.false_eq_true, if_false] at h
            cases hb : bodyLines.flatten.isEmpty <;> rw [hb] at h
            · simp only [Bool.false_eq_true, if_false] at h
              injection h with h'
              subst h'
              exact ⟨l1, rest, hs, bodyLines, rfl, hlf, hm3, hph, rfl, rfl,
                Or.inr ⟨hcl, hb, rfl⟩⟩
            · simp at h
          · rw [if_pos rfl] at h
            injection h with h'
            subst h'
            exact ⟨l1, rest, hs, bodyLines, rfl, hlf, hm3, hph, rfl, rfl,
              Or.inl ⟨hcl, rfl⟩⟩
      · simp at h

theorem ParseRequest_no_lf {data : Str} (h : '\n' ∉ data) (tls : Option Unit) :
    ParseRequest data tls = .error .readRequestLineErr := by
  rcases List.eq_nil_or_concat data with h0 | ⟨y, d, h0⟩
  · subst h0; rfl
  · rw [List.concat_eq_append] at h0
    have hne : data.isEmpty = false := by simp [h0]
    have hlf : endsWithLF data = false := by
      have hd : d ≠ '\n' := fun hh => h (hh ▸ (by simp [h0]))
      simp [endsWithLF, h0, List.getLast?_concat, hd]
    have hsl : splitLines data = [data] := by
      rw [splitLines_no_lf h, hne]
      simp
    unfold ParseRequest
    rw [hsl]
    simp only []
    rw [hlf]
    simp

theorem ParseRequest_badRequestLine {data : Str} {l1 : Str} {rest : List Str}
    (hsl : splitLines data = l1 :: rest) (hlf : endsWithLF l1 = true)
    (hlen : (splitOnC ' ' (trimSpace l1)).length ≠ 3) (tls : Option Unit) :
    ParseRequest data tls = .error (.invalidRequestLine (trimSpace l1)) := by
  unfold ParseRequest
  rw [hsl]
  simp only []
  rw [if_pos hlf]
  rcases hm3 : splitOnC ' ' (trimSpace l1) with _ | ⟨m, _ | ⟨p, _ | ⟨v, _ | ⟨d, t4⟩⟩⟩⟩
  · rfl
  · rfl
  · rfl
  · exact absurd (by simp [hm3]) hlen
  · rfl

theorem mem_of_mem_trimSpace {c : Char} {l : Str} (h : c ∈ trimSpace l) : c ∈ l := by
  have h1 : c ∈ trimRight l := (List.dropWhile_sublist wsp).subset h
  have h2 : c ∈ l.reverse.dropWhile wsp := by
    simpa [trimRight] using h1
  exact List.mem_reverse.mp ((List.dropWhile_sublist wsp).subset h2)

theorem ParseRequest_body_suffix {data : Str} {tls : Option Unit} {r : Request}
    (h : ParseRequest data tls = .ok r) : ∃ pre, data = pre ++ r.body := by
  obtain ⟨l1, rest, hs, bodyLines, hq, _, _, hph, _, _, hbody⟩ := ParseRequest_ok_inv h
  have hdata : data = l1 ++ rest.flatten := by
    have := splitLines_flatten data
    rw [hq] at this
    simpa using this.symm
  rcases hbody with ⟨_, hb⟩ | ⟨_, _, hb⟩
  · exact ⟨data, by simp [hb]⟩
  · obtain ⟨pre, hpre⟩ := parseHeaderLines_suffix rest [] hs bodyLines hph
    exact ⟨l1 ++ pre, by rw [hdata, hpre, hb, List.append_assoc]⟩

theorem assocSet_mem_self {α : Type} (m : List (Str × α)) (k : Str) (v : α) :
    (k, v) ∈ assocSet m k v := by
  induction m with
  | nil => simp [assocSet]
  | cons p t ih =>
    obtain ⟨k0, v0⟩ := p
    by_cases h : k0 = k
    · subst h
      simp [assocSet]
    · have hb : (k0 == k) = false := beq_eq_false_iff_ne.mpr h
      simp only [assocSet, hb, Bool.false_eq_true, if_false]
      exact List.mem_cons_of_mem _ ih

theorem FormatResponse_carries {res : Response} {k v : Str}
    (h : (k, v) ∈ res.headers) :
    ∃ pre post, FormatResponse res = pre ++ headerLine (k, v) ++ post := by
  have hmem : headerLine (k, v) ∈ headerLines res.headers :=
    List.mem_map_of_mem headerLine h
  obtain ⟨s, t, hst⟩ := List.append_of_mem hmem
  refine ⟨res.version ++ [' '] ++ natStr res.statusCode ++ [' '] ++ res.statusText
    ++ crlf ++ s.flatten, t.flatten ++ crlf ++ res.body, ?_⟩
  rw [FormatResponse, hst]
  simp [List.append_assoc]

theorem applyOps_maxConns (ops : List PoolOp) : ∀ p : ConnPool,
    (applyOps p ops).maxConns = p.maxConns := by
  induction ops with
  | nil => intro p; rfl
  | cons op t ih =>
    intro p
    rw [applyOps, List.foldl_cons, ← applyOps]
    rw [ih (applyOp p op)]
    cases op with
    | put c =>
      simp only [applyOp, ConnPool.Put]
      by_cases h : p.conns.length < p.maxConns <;> simp [h]
    | get =>
      simp only [applyOp, ConnPool.GetIdle]
      cases p.conns <;> simp
    | drain => rfl

theorem applyOp_bounded {p : ConnPool} (h : p.conns.length ≤ p.maxConns)
    (op : PoolOp) : (applyOp p op).conns.length ≤ (applyOp p op).maxConns := by
  cases op with
  | put c =>
    simp only [applyOp, ConnPool.Put]
    by_cases hlt : p.conns.length < p.maxConns
    · simp [hlt]
      omega
    · simp [hlt]
      exact h
  | get =>
    simp only [applyOp, ConnPool.GetIdle]
    cases hc : p.conns with
    | nil =>
      rw [hc] at h
      simp only [hc]
      exact h
    | cons c t =>
      simp only []
      have := congrArg List.length hc
      simp at this
      simp
      omega
  | drain => simp [applyOp, ConnPool.CloseIdleConnections]

theorem applyOps_bounded (ops : List PoolOp) : ∀ p : ConnPool,
    p.conns.length ≤ p.maxConns →
    (applyOps p ops).conns.length ≤ (applyOps p ops).maxConns := by
  induction ops with
  | nil => intro p h; exact h
  | cons op t ih =>
    intro p h
    rw [applyOps, List.foldl_cons, ← applyOps]
    exact ih (applyOp p op) (applyOp_bounded h op)

/-!
Claim theorems.
-/

set_option maxRecDepth 8000

/-- C4: for every request with no TLS connection state whose path does not
begin with "/static/", dispatch returns a 301 Moved Permanently response whose
Location header is "https://" ++ Host header ++ path, for every router —
hence without consulting the route table, any handler, or any middleware. -/
theorem C4_httpsRedirect (r : Router) (req : Request)
    (htls : req.tls = none)
    (hpath : strStartsWith (sl "/static/") req.path = false) :
    Router.HandleRequest r req =
      { version := sl "HTTP/1.1", statusCode := 301,
        statusText := sl "Moved Permanently",
        headers := [(sl "Location",
          sl "https://" ++ lookupD req.headers (sl "Host") ++ req.path)],
        body := [] } := by
  have hguard : (req.tls.isNone && r.shouldRedirectToHTTPS req) = true := by
    simp [htls, Router.shouldRedirectToHTTPS, hpath]
  rw [Router.HandleRequest, if_pos hguard]
  simp [Router.redirectToHTTPS, Response.SetHeader, NewResponse, assocSet,
    statusTextOf]

/-- C4 witness: a plain-HTTP request to a path with a registered handler and
registered middleware is still answered by the canonical redirect. -/
theorem C4_httpsRedirect_witness :
    Router.HandleRequest
      (Router.Use
        (Router.AddRoute NewRouter (sl "GET") (sl "/hello")
          (fun _ => Response.SetBody NewResponse (sl "hi")))
        (fun h => h))
      { method := sl "GET", path := sl "/hello", version := sl "HTTP/1.1",
        headers := [(sl "Host", sl "ex.com")], body := [], tls := none } =
      { version := sl "HTTP/1.1", statusCode := 301,
        statusText := sl "Moved Permanently",
        headers := [(sl "Location", sl "https://" ++
          lookupD [(sl "Host", sl "ex.com")] (sl "Host") ++ sl "/hello")],
        body := [] } :=
  C4_httpsRedirect _ _ rfl (by decide)

/-- C3 counterexample: on a plain-HTTP request for an unregistered non-static
(method, path), dispatch returns the 301 redirect, not the canonical 404, so
the claim as stated is false. -/
theorem C3_counterexample :
    lookupRoute NewRouter (sl "GET") (sl "/missing") = none ∧
    (Router.HandleRequest NewRouter
      { method := sl "GET", path := sl "/missing", version := sl "HTTP/1.1",
        headers := [(sl "Host", sl "example.com")], body := [],
        tls := none }).statusCode = 301 ∧
    (Router.HandleRequest NewRouter
      { method := sl "GET", path := sl "/missing", version := sl "HTTP/1.1",
        headers := [(sl "Host", sl "example.com")], body := [],
        tls := none }).body ≠ sl "404 - Not Found" := by
  refine ⟨rfl, rfl, ?_⟩
  decide

/-- C3 amended: dispatch on an unregistered (method, path) yields status 404
with body "404 - Not Found" provided the request carries TLS state or its
path begins with "/static/" (otherwise the HTTPS redirect preempts the route
table and returns 301). -/
theorem C3_notFound_amended (r : Router) (req : Request)
    (hlook : lookupRoute r req.method req.path = none)
    (hcond : req.tls ≠ none ∨ strStartsWith (sl "/static/") req.path = true) :
    Router.HandleRequest r req =
      { version := sl "HTTP/1.1", statusCode := 404, statusText := sl "Not Found",
        headers := [(sl "Content-Length", sl "15")], body := sl "404 - Not Found" } := by
  have hguard : (req.tls.isNone && r.shouldRedirectToHTTPS req) = false := by
    rcases hcond with hc | hc
    · cases htl : req.tls with
      | none => exact absurd htl hc
      | some u => simp [htl]
    · simp [Router.shouldRedirectToHTTPS, hc]
  rw [Router.HandleRequest, if_neg (by simp [hguard]), hlook]
  rfl

/-- C3 witness: a TLS request for an unregistered path on a router with an
unrelated route gets the canonical 404. -/
theorem C3_notFound_witness :
    lookupRoute (Router.AddRoute NewRouter (sl "GET") (sl "/hello")
        (fun _ => NewResponse)) (sl "GET") (sl "/missing") = none ∧
    Router.HandleRequest
      (Router.AddRoute NewRouter (sl "GET") (sl "/hello") (fun _ => NewResponse))
      { method := sl "GET", path := sl "/missing", version := sl "HTTP/1.1",
        headers := [], body := [], tls := some () } =
      { version := sl "HTTP/1.1", statusCode := 404, statusText := sl "Not Found",
        headers := [(sl "Content-Length", sl "15")], body := sl "404 - Not Found" } :=
  ⟨rfl, C3_notFound_amended _ _ rfl (Or.inl (by decide))⟩

/-- C8 counterexample: with middleware [A, B] registered and a handler H
registered for (GET, /x), dispatching a plain-HTTP request for /x does not
invoke the composition A(B(H)); the HTTPS redirect answers instead, so the
claim as stated is false. -/
theorem C8_counterexample :
    Router.HandleRequest
      (Router.Use
        (Router.Use
          (Router.AddRoute NewRouter (sl "GET") (sl "/x")
            (fun _ => Response.SetBody NewResponse (sl "H")))
          (fun h q => Response.SetBody (h q) (sl "A")))
        (fun h q => Response.SetBody (h q) (sl "B")))
      { method := sl "GET", path := sl "/x", version := sl "HTTP/1.1",
        headers := [], body := [], tls := none } ≠
    (((fun h q => Response.SetBody (h q) (sl "A")) : MiddlewareFunc)
      (((fun h q => Response.SetBody (h q) (sl "B")) : MiddlewareFunc)
        ((fun _ => Response.SetBody NewResponse (sl "H")) : HandlerFunc)))
      { method := sl "GET", path := sl "/x", version := sl "HTTP/1.1",
        headers := [], body := [], tls := none } := by
  decide

/-- C8 amended: when dispatch reaches the route table (TLS present or a
/static/ path), middleware registered in order [A, B] around the registered
handler h is invoked as the composition A(B(h)) — first registered is the
outermost wrapper — and with body-tagging middleware the observable order is
A-before, B-before, H, B-after, A-after. -/
theorem C8_middleware_amended :
    (∀ (rts : List (Str × List (Str × HandlerFunc))) (A B : MiddlewareFunc)
      (req : Request) (h : HandlerFunc),
      lookupRoute { routes := rts, middleware := [A, B] } req.method req.path = some h →
      (req.tls ≠ none ∨ strStartsWith (sl "/static/") req.path = true) →
      Router.HandleRequest { routes := rts, middleware := [A, B] } req = A (B h) req) ∧
    (Router.HandleRequest
      (Router.Use
        (Router.Use
          (Router.AddRoute NewRouter (sl "GET") (sl "/x")
            (fun q => { NewResponse with body := q.body ++ sl "H;" }))
          (fun h q =>
            { h { q with body := q.body ++ sl "A-before;" } with
              body := (h { q with body := q.body ++ sl "A-before;" }).body
                ++ sl "A-after;" }))
        (fun h q =>
          { h { q with body := q.body ++ sl "B-before;" } with
            body := (h { q with body := q.body ++ sl "B-before;" }).body
              ++ sl "B-after;" }))
      { method := sl "GET", path := sl "/x", version := sl "HTTP/1.1",
        headers := [], body := [], tls := some () }).body =
      sl "A-before;B-before;H;B-after;A-after;" := by
  constructor
  · intro rts A B req h hlook hcond
    have hguard : (req.tls.isNone &&
        Router.shouldRedirectToHTTPS { routes := rts, middleware := [A, B] } req)
        = false := by
      rcases hcond with hc | hc
      · cases htl : req.tls with
        | none => exact absurd htl hc
        | some u => simp [htl]
      · simp [Router.shouldRedirectToHTTPS, hc]
    rw [Router.HandleRequest, if_neg (by simp [hguard]), hlook]
    rfl
  · decide

/-- C8 witness: the composition equation applied at a concrete route table,
middleware pair, and TLS request. -/
theorem C8_middleware_witness :
    lookupRoute
      { routes := [(sl "GET", [(sl "/x",
          (fun _ => Response.SetBody NewResponse (sl "H") : HandlerFunc))])],
        middleware := [(fun h q => Response.SetBody (h q) (sl "A") : MiddlewareFunc),
          (fun h q => Response.SetBody (h q) (sl "B") : MiddlewareFunc)] }
      (sl "GET") (sl "/x") =
      some (fun _ => Response.SetBody NewResponse (sl "H")) ∧
    Router.HandleRequest
      { routes := [(sl "GET", [(sl "/x",
          (fun _ => Response.SetBody NewResponse (sl "H") : HandlerFunc))])],
        middleware := [(fun h q => Response.SetBody (h q) (sl "A") : MiddlewareFunc),
          (fun h q => Response.SetBody (h q) (sl "B") : MiddlewareFunc)] }
      { method := sl "GET", path := sl "/x", version := sl "HTTP/1.1",
        headers := [], body := [], tls := some () } =
      (((fun h q => Response.SetBody (h q) (sl "A")) : MiddlewareFunc)
        (((fun h q => Response.SetBody (h q) (sl "B")) : MiddlewareFunc)
          ((fun _ => Response.SetBody NewResponse (sl "H")) : HandlerFunc)))
      { method := sl "GET", path := sl "/x", version := sl "HTTP/1.1",
        headers := [], body := [], tls := some () } :=
  ⟨rfl,
    C8_middleware_amended.1
      [(sl "GET", [(sl "/x",
        (fun _ => Response.SetBody NewResponse (sl "H") : HandlerFunc))])]
      (fun h q => Response.SetBody (h q) (sl "A"))
      (fun h q => Response.SetBody (h q) (sl "B"))
      { method := sl "GET", path := sl "/x", version := sl "HTTP/1.1",
        headers := [], body := [], tls := some () }
      (fun _ => Response.SetBody NewResponse (sl "H"))
      rfl (Or.inl (by decide))⟩

/-- C9: the body-setter stores the body and writes/overwrites Content-Length
to the decimal body length; a subsequent explicit SetHeader of
Content-Length overrides it, and the formatted output carries the overridden
header line. -/
theorem C9_setBody (r : Response) (b v : Str) :
    (r.SetBody b).body = b ∧
    assocFind? (r.SetBody b).headers (sl "Content-Length")
      = some (natStr b.length) ∧
    assocFind? ((r.SetBody b).SetHeader (sl "Content-Length") v).headers
      (sl "Content-Length") = some v ∧
    ∃ pre post,
      FormatResponse ((r.SetBody b).SetHeader (sl "Content-Length") v) =
        pre ++ headerLine (sl "Content-Length", v) ++ post := by
  refine ⟨rfl, ?_, ?_, ?_⟩
  · simp [Response.SetBody, Response.SetHeader, assocFind?_set]
  · simp [Response.SetBody, Response.SetHeader, assocFind?_set]
  · exact FormatResponse_carries (assocSet_mem_self _ _ _)

/-- C10: a pool built with capacity C never stores more than C idle
connections across any sequence of put/get/drain operations, and a put at
capacity closes the offered connection and leaves the pool unchanged. -/
theorem C10_pool :
    (∀ (C : Nat) (ops : List PoolOp),
      (applyOps (NewConnPool C) ops).conns.length ≤ C) ∧
    (∀ (C : Nat) (ops : List PoolOp) (c : Nat),
      (applyOps (NewConnPool C) ops).conns.length = C →
      (applyOps (NewConnPool C) ops).Put c = (applyOps (NewConnPool C) ops, [c])) := by
  constructor
  · intro C ops
    have h1 := applyOps_bounded ops (NewConnPool C) (by simp [NewConnPool])
    rwa [applyOps_maxConns ops (NewConnPool C)] at h1
  · intro C ops c hfull
    have hmax := applyOps_maxConns ops (NewConnPool C)
    rw [ConnPool.Put, hfull, hmax]
    simp [NewConnPool]

/-- C10 witness: a capacity-1 pool filled by one put; a further put returns
the pool unchanged and closes the offered connection. -/
theorem C10_pool_witness :
    (applyOps (NewConnPool 1) [.put 5]).conns.length = 1 ∧
    (applyOps (NewConnPool 1) [.put 5]).Put 7 = (applyOps (NewConnPool 1) [.put 5], [7]) :=
  ⟨by decide, C10_pool.2 1 [.put 5] 7 (by decide)⟩

theorem foldl_headers_find (hs : List (Str × Str)) (k : Str) :
    assocFind? (hs.foldl (fun m q => assocSet m q.1 q.2) []) k = lastLookup? hs k := by
  rw [foldl_assocSet_find]
  cases lastLookup? hs k <;> simp [Option.orElse, assocFind?]

/-- C1 counterexample: the well-formed request GET / HTTP/1.1 with header
Content-Length: 0 and empty body serializes per the wire format, but parsing
the serialization fails with the body-read error, so no round-trip happens
and the claim as stated is false. -/
theorem C1_counterexample :
    WellFormedReq
      { method := sl "GET", path := sl "/", version := sl "HTTP/1.1",
        headers := [(sl "Content-Length", sl "0")], body := [], tls := none } = true ∧
    ParseRequest (serializeRequest
      { method := sl "GET", path := sl "/", version := sl "HTTP/1.1",
        headers := [(sl "Content-Length", sl "0")], body := [], tls := none }) none =
      .error .readBodyErr :=
  ⟨by decide, by rfl⟩

/-- C1 amended: for every well-formed request R that does not pair a
Content-Length header with an empty body, parsing the serialization of R
yields a request with the same method, path and version, and whose header
map agrees with the last-occurrence-wins reading of R's headers at every
key.  Well-formedness requires tokens free of TrimSpace whitespace and
trim-stable header names and values, since the parser trims every line, key
and value.  The conclusion constrains no body bytes, and parse success and
all non-body fields are independent of the body-read buffering, so the
statement needs no input size bound. -/
theorem C1_roundtrip (R : Request) (tls : Option Unit)
    (h : WellFormedReq R = true)
    (hcl : lastLookupD R.headers (sl "Content-Length") = [] ∨ R.body ≠ []) :
    ∃ req, ParseRequest (serializeRequest R) tls = .ok req ∧
      req.method = R.method ∧ req.path = R.path ∧ req.version = R.version ∧
      ∀ k, assocFind? req.headers k = lastLookup? R.headers k := by
  have hser := ParseRequest_serialize R tls h
  cases hc : (lookupD (R.headers.foldl (fun m q => assocSet m q.1 q.2) [])
      (sl "Content-Length")).isEmpty
  · rw [hc] at hser
    simp only [Bool.false_eq_true, if_false] at hser
    have hbody : R.body ≠ [] := by
      rcases hcl with hcl | hcl
      · exfalso
        have heq : lookupD (R.headers.foldl (fun m q => assocSet m q.1 q.2) [])
            (sl "Content-Length") = lastLookupD R.headers (sl "Content-Length") := by
          simp [lookupD, lastLookupD, foldl_headers_find]
        rw [heq, hcl] at hc
        simp at hc
      · exact hcl
    have hbe : R.body.isEmpty = false := by
      cases hx : R.body.isEmpty
      · rfl
      · exact absurd (List.isEmpty_iff.mp hx) hbody
    rw [hbe] at hser
    simp only [Bool.false_eq_true, if_false] at hser
    exact ⟨_, hser, rfl, rfl, rfl, fun k => foldl_headers_find R.headers k⟩
  · rw [hc] at hser
    rw [if_pos rfl] at hser
    exact ⟨_, hser, rfl, rfl, rfl, fun k => foldl_headers_find R.headers k⟩

/-- C1 witness: the round-trip applied to the spec's example request. -/
theorem C1_roundtrip_witness :
    WellFormedReq
      { method := sl "GET", path := sl "/index.html", version := sl "HTTP/1.1",
        headers := [(sl "Host", sl "www.example.com"), (sl "User-Agent", sl "X")],
        body := [], tls := none } = true ∧
    (∃ req, ParseRequest (serializeRequest
        { method := sl "GET", path := sl "/index.html", version := sl "HTTP/1.1",
          headers := [(sl "Host", sl "www.example.com"), (sl "User-Agent", sl "X")],
          body := [], tls := none }) none = .ok req ∧
      req.method = sl "GET" ∧ req.path = sl "/index.html" ∧
      req.version = sl "HTTP/1.1" ∧
      ∀ k, assocFind? req.headers k = lastLookup?
        [(sl "Host", sl "www.example.com"), (sl "User-Agent", sl "X")] k) :=
  ⟨by decide,
    C1_roundtrip
      { method := sl "GET", path := sl "/index.html", version := sl "HTTP/1.1",
        headers := [(sl "Host", sl "www.example.com"), (sl "User-Agent", sl "X")],
        body := [], tls := none } none (by decide) (Or.inl (by decide))⟩

/-- C2 counterexample: a buffer with the CRLF CRLF separator and the nonempty
remainder "hello" but no Content-Length header parses successfully with an
empty body, so the remainder is not assigned as the body and the claim as
stated is false. -/
theorem C2_counterexample :
    hasSubstr (sl "\r\n\r\n") (sl "GET / HTTP/1.1\r\n\r\nhello") = true ∧
    splitSeqFirst (sl "\r\n\r\n") (sl "GET / HTTP/1.1\r\n\r\nhello") =
      some (sl "GET / HTTP/1.1", sl "hello") ∧
    ParseRequest (sl "GET / HTTP/1.1\r\n\r\nhello") none =
      .ok
        { method := sl "GET", path := sl "/", version := sl "HTTP/1.1",
          headers := [], body := [], tls := none } :=
  ⟨by decide, by decide, by rfl⟩

/-- C2 amended: the parser reads a body only when a Content-Length header
with a nonempty value was parsed; with no (or an empty) Content-Length value
the body is always empty regardless of the remainder, at any input size.
For buffers within one bufio fill (at most 4096 bytes — every read the
server performs is at most 1024), the body read is then the nonempty
verbatim tail of the buffer, and for well-formed serialized requests with
Content-Length present and a nonempty body the body after the separator is
recovered verbatim with no truncation to the declared length; beyond one
fill the single `bufio.Read` returns only the already-buffered bytes. -/
theorem C2_body_amended :
    (∀ (data : Str) (tls : Option Unit) (r : Request),
      ParseRequest data tls = .ok r →
      lookupD r.headers (sl "Content-Length") = [] → r.body = []) ∧
    (∀ (data : Str) (tls : Option Unit) (r : Request),
      data.length ≤ 4096 →
      ParseRequest data tls = .ok r →
      lookupD r.headers (sl "Content-Length") ≠ [] →
      r.body ≠ [] ∧ ∃ pre, data = pre ++ r.body) ∧
    (∀ (R : Request) (tls : Option Unit), WellFormedReq R = true →
      (serializeRequest R).length ≤ 4096 →
      lastLookupD R.headers (sl "Content-Length") ≠ [] → R.body ≠ [] →
      ∃ req, ParseRequest (serializeRequest R) tls = .ok req ∧ req.body = R.body) := by
  refine ⟨?_, ?_, ?_⟩
  · intro data tls r h hcl
    obtain ⟨l1, rest, hs, bodyLines, _, _, _, _, hhs, _, hb⟩ := ParseRequest_ok_inv h
    rcases hb with ⟨_, hb2⟩ | ⟨hb1, _, _⟩
    · exact hb2
    · rw [hhs] at hcl
      rw [hcl] at hb1
      simp at hb1
  · intro data tls r _hlen h hcl
    obtain ⟨l1, rest, hs, bodyLines, _, _, _, _, hhs, _, hb⟩ := ParseRequest_ok_inv h
    rcases hb with ⟨hb1, _⟩ | ⟨_, hb2, hb3⟩
    · rw [hhs] at hcl
      exact absurd (List.isEmpty_iff.mp hb1) hcl
    · refine ⟨?_, ParseRequest_body_suffix h⟩
      rw [hb3]
      intro hx
      rw [hx] at hb2
      simp at hb2
  · intro R tls h _hlen hcl hbody
    have hser := ParseRequest_serialize R tls h
    cases hc : (lookupD (R.headers.foldl (fun m q => assocSet m q.1 q.2) [])
        (sl "Content-Length")).isEmpty
    · rw [hc] at hser
      simp only [Bool.false_eq_true, if_false] at hser
      have hbe : R.body.isEmpty = false := by
        cases hx : R.body.isEmpty
        · rfl
        · exact absurd (List.isEmpty_iff.mp hx) hbody
      rw [hbe] at hser
      simp only [Bool.false_eq_true, if_false] at hser
      exact ⟨_, hser, rfl⟩
    · exfalso
      have heq : lookupD (R.headers.foldl (fun m q => assocSet m q.1 q.2) [])
          (sl "Content-Length") = lastLookupD R.headers (sl "Content-Length") := by
        simp [lookupD, lastLookupD, foldl_headers_find]
      rw [heq] at hc
      exact hcl (List.isEmpty_iff.mp hc)

/-- C2 witness: a buffer with Content-Length 5 and tail "hello" parses with
the verbatim nonempty suffix as its body. -/
theorem C2_body_witness :
    ParseRequest (sl "GET / HTTP/1.1\r\nContent-Length: 5\r\n\r\nhello") none =
      .ok
        { method := sl "GET", path := sl "/", version := sl "HTTP/1.1",
          headers := [(sl "Content-Length", sl "5")], body := sl "hello",
          tls := none } ∧
    (({ method := sl "GET", path := sl "/", version := sl "HTTP/1.1",
        headers := [(sl "Content-Length", sl "5")], body := sl "hello",
        tls := none } : Request).body ≠ [] ∧
      ∃ pre, sl "GET / HTTP/1.1\r\nContent-Length: 5\r\n\r\nhello" =
        pre ++ ({ method := sl "GET", path := sl "/", version := sl "HTTP/1.1",
                  headers := [(sl "Content-Length", sl "5")], body := sl "hello",
                  tls := none } : Request).body) :=
  ⟨by rfl,
    C2_body_amended.2.1 (sl "GET / HTTP/1.1\r\nContent-Length: 5\r\n\r\nhello") none
      { method := sl "GET", path := sl "/", version := sl "HTTP/1.1",
        headers := [(sl "Content-Length", sl "5")], body := sl "hello",
        tls := none } (by decide) (by rfl) (by decide)⟩

/-- C5 counterexample: the buffer "GET / HTTP/1.1\n\n" contains no CRLF CRLF
sequence, yet parse returns a Request, so the claim as stated is false. -/
theorem C5_counterexample :
    hasSubstr (sl "\r\n\r\n") (sl "GET / HTTP/1.1\n\n") = false ∧
    ParseRequest (sl "GET / HTTP/1.1\n\n") none =
      .ok
        { method := sl "GET", path := sl "/", version := sl "HTTP/1.1",
          headers := [], body := [], tls := none } :=
  ⟨by decide, by rfl⟩

/-- C5 amended: parse returns a Request only when the buffer contains a
complete (LF-terminated) line that trims to blank, ending the header block;
in particular a buffer without any LF at all fails with the request-line
read error (not a dedicated missing-body-separator error, which this parser
does not have). -/
theorem C5_separator_amended :
    (∀ (data : Str) (tls : Option Unit) (r : Request),
      ParseRequest data tls = .ok r →
      ∃ l ∈ splitLines data, endsWithLF l = true ∧ trimSpace l = []) ∧
    (∀ (data : Str) (tls : Option Unit), '\n' ∉ data →
      ParseRequest data tls = .error .readRequestLineErr) := by
  constructor
  · intro data tls r h
    obtain ⟨l1, rest, hs, bodyLines, hq, _, _, hph, _⟩ := ParseRequest_ok_inv h
    obtain ⟨l, hl, h1, h2⟩ := parseHeaderLines_blank rest [] hs bodyLines hph
    refine ⟨l, ?_, h1, h2⟩
    rw [hq]
    exact List.mem_cons_of_mem _ hl
  · intro data tls h
    exact ParseRequest_no_lf h tls

/-- C5 witness: a parsed buffer exhibits its blank header-terminating line,
and a newline-free buffer fails with the request-line read error. -/
theorem C5_separator_witness :
    (∃ l ∈ splitLines (sl "GET / HTTP/1.1\r\n\r\n"),
      endsWithLF l = true ∧ trimSpace l = []) ∧
    ParseRequest (sl "GET nothing here") none = .error .readRequestLineErr :=
  ⟨C5_separator_amended.1 (sl "GET / HTTP/1.1\r\n\r\n") none
      { method := sl "GET", path := sl "/", version := sl "HTTP/1.1",
        headers := [], body := [], tls := none } (by rfl),
    C5_separator_amended.2 (sl "GET nothing here") none (by decide)⟩

/-- C6 counterexample: the first line of "GET  HTTP/1.1\r\n\r\n" (two
spaces) has only two whitespace-separated tokens, yet parse succeeds — the
source splits on every single space keeping empty parts, so the line yields
three parts with an empty middle and the path becomes "" — refuting the
claim that parse succeeds only on exactly three whitespace-separated
tokens. -/
theorem C6_counterexample :
    specFields (sl "GET  HTTP/1.1") = [sl "GET", sl "HTTP/1.1"] ∧
    (specFields (sl "GET  HTTP/1.1")).length ≠ 3 ∧
    splitOnC ' ' (sl "GET  HTTP/1.1") = [sl "GET", [], sl "HTTP/1.1"] ∧
    ParseRequest (sl "GET  HTTP/1.1\r\n\r\n") none =
      .ok
        { method := sl "GET", path := [], version := sl "HTTP/1.1",
          headers := [], body := [], tls := none } :=
  ⟨by decide, by decide, by decide, by rfl⟩

/-- C6 amended: parse succeeds exactly when the trimmed first line, split on
every single space with empty parts kept, has exactly three parts, which
become method, path and version verbatim (possibly empty); a complete
LF-terminated first line with a different number of parts fails with the
invalid-request-line error — in particular "GET HTTP/1.1\r\n\r\n" — while a
buffer whose first line is not LF-terminated fails with the request-line
read error instead. -/
theorem C6_requestLine_amended :
    (∀ (data : Str) (tls : Option Unit) (r : Request),
      ParseRequest data tls = .ok r →
      ∃ l1 rest, splitLines data = l1 :: rest ∧
        splitOnC ' ' (trimSpace l1) = [r.method, r.path, r.version]) ∧
    (∀ (data l1 : Str) (rest : List Str) (tls : Option Unit),
      splitLines data = l1 :: rest → endsWithLF l1 = true →
      (splitOnC ' ' (trimSpace l1)).length ≠ 3 →
      ParseRequest data tls = .error (.invalidRequestLine (trimSpace l1))) ∧
    (∀ (data : Str) (tls : Option Unit), '\n' ∉ data →
      ParseRequest data tls = .error .readRequestLineErr) ∧
    ParseRequest (sl "GET HTTP/1.1\r\n\r\n") none =
      .error (.invalidRequestLine (sl "GET HTTP/1.1")) := by
  refine ⟨?_, ?_, ?_, by rfl⟩
  · intro data tls r h
    obtain ⟨l1, rest, hs, bodyLines, hq, _, hm3, _⟩ := ParseRequest_ok_inv h
    exact ⟨l1, rest, hq, hm3⟩
  · intro data l1 rest tls hsl hlf hlen
    exact ParseRequest_badRequestLine hsl hlf hlen tls
  · intro data tls h
    exact ParseRequest_no_lf h tls

/-- C6 witness: the success direction at a well-formed buffer, the failure
direction at the two-token example buffer, and the read error on an LF-less
buffer. -/
theorem C6_requestLine_witness :
    (∃ l1 rest, splitLines (sl "GET / HTTP/1.1\r\n\r\n") = l1 :: rest ∧
      splitOnC ' ' (trimSpace l1) = [sl "GET", sl "/", sl "HTTP/1.1"]) ∧
    ParseRequest (sl "GET HTTP/1.1\r\n\r\n") none =
      .error (.invalidRequestLine (trimSpace (sl "GET HTTP/1.1\r\n"))) ∧
    ParseRequest (sl "GET HTTP/1.1") none = .error .readRequestLineErr :=
  ⟨C6_requestLine_amended.1 (sl "GET / HTTP/1.1\r\n\r\n") none
      { method := sl "GET", path := sl "/", version := sl "HTTP/1.1",
        headers := [], body := [], tls := none } (by rfl),
    C6_requestLine_amended.2.1 (sl "GET HTTP/1.1\r\n\r\n") (sl "GET HTTP/1.1\r\n")
      [sl "\r\n"] none (by rfl) (by decide) (by decide),
    C6_requestLine_amended.2.2.1 (sl "GET HTTP/1.1") none (by decide)⟩

/-- C7 counterexample: the header line "Host:example" contains no
colon-space delimiter, yet the buffer parses successfully (the parser splits
on the bare colon and trims), so the claim as stated is false. -/
theorem C7_counterexample :
    hasSubstr (sl ": ") (sl "Host:example") = false ∧
    ParseRequest (sl "GET / HTTP/1.1\r\nHost:example\r\n\r\n") none =
      .ok
        { method := sl "GET", path := sl "/", version := sl "HTTP/1.1",
          headers := [(sl "Host", sl "example")], body := [], tls := none } :=
  ⟨by decide, by rfl⟩

/-- C7 amended: header lines are split at the first bare colon with
whitespace trimmed from name and value; a complete non-blank header line
containing no colon at all fails with the invalid-header error; and a header
block consisting of the request line only parses with zero headers. -/
theorem C7_header_amended :
    (∀ (L rest : Str) (tls : Option Unit), '\n' ∉ L → ':' ∉ L →
      trimSpace L ≠ [] →
      ParseRequest (sl "GET / HTTP/1.1\r\n" ++ (L ++ (crlf ++ rest))) tls =
        .error (.invalidHeader (trimSpace L))) ∧
    ParseRequest (sl "GET / HTTP/1.1\r\n\r\n") none =
      .ok
        { method := sl "GET", path := sl "/", version := sl "HTTP/1.1",
          headers := [], body := [], tls := none } := by
  refine ⟨?_, by rfl⟩
  intro L rest tls h1 h2 h3
  have hie : (trimSpace L).isEmpty = false := by
    cases hx : (trimSpace L).isEmpty
    · rfl
    · exact absurd (List.isEmpty_iff.mp hx) h3
  have hph : parseHeaderLines ((L ++ crlf) :: splitLines rest) [] =
      .error (.invalidHeader (trimSpace L)) := by
    unfold parseHeaderLines
    rw [if_pos (endsWithLF_append_crlf L), trimSpace_append_crlf, hie]
    simp only [Bool.false_eq_true, if_false]
    rw [splitFirst_none (fun hm => h2 (mem_of_mem_trimSpace hm))]
  have hb1 : sl "GET / HTTP/1.1\r\n" ++ (L ++ (crlf ++ rest)) =
      sl "GET / HTTP/1.1\r" ++ '\n' :: (L ++ (crlf ++ rest)) := by rfl
  have hsl1 : splitLines (sl "GET / HTTP/1.1\r\n" ++ (L ++ (crlf ++ rest))) =
      sl "GET / HTTP/1.1\r\n" :: splitLines (L ++ (crlf ++ rest)) := by
    rw [hb1, splitLines_cons_line (by decide)]
    rfl
  have hsl2 : splitLines (L ++ (crlf ++ rest)) = (L ++ crlf) :: splitLines rest := by
    have hb2 : L ++ (crlf ++ rest) = (L ++ ['\r']) ++ '\n' :: rest := by
      simp [crlf, List.append_assoc]
    have hnl : '\n' ∉ (L ++ ['\r']) := by
      intro hm
      rcases List.mem_append.mp hm with hm | hm
      · exact h1 hm
      · simp at hm
    rw [hb2, splitLines_cons_line hnl]
    simp [crlf, List.append_assoc]
  unfold ParseRequest
  rw [hsl1, hsl2]
  simp only []
  rw [if_pos (by decide : endsWithLF (sl "GET / HTTP/1.1\r\n") = true)]
  rw [show splitOnC ' ' (trimSpace (sl "GET / HTTP/1.1\r\n")) =
    [sl "GET", sl "/", sl "HTTP/1.1"] from by decide]
  rw [hph]

/-- C7 witness: a colon-free header line fails with the invalid-header
error carrying the trimmed line. -/
theorem C7_header_witness :
    ParseRequest (sl "GET / HTTP/1.1\r\n" ++ (sl "NoColonHere" ++ (crlf ++ sl ""))) none =
      .error (.invalidHeader (trimSpace (sl "NoColonHere"))) :=
  C7_header_amended.1 (sl "NoColonHere") (sl "") none (by decide) (by decide)
    (by decide)
